import Mathlib

/-!
Verification development for the dde-file-manager virtual-root subsystem.

The definitions below are a shallow embedding of:
  * `src/src/dde-file-manager-lib/controllers/dfmrootcontroller.cpp`
    (visibility policy `ignoreBlkDevice`, enumeration `getChildren`,
     rename/alias mutator, watcher `start`/`stop`/`handleGhostSignal`);
  * `src/filemanager/models/durl.cpp` (address model `DUrl`, `operator==`).

Qt string primitives (`startsWith`, `trimmed`, `mid`, `join`, `contains`,
`remove`, `QUrl::toPercentEncoding`, `QUrl::fromPercentEncoding`) are
re-implemented here over `List Char` / `String` so that everything is
executable and kernel-reducible.

Constants that live in headers outside the provided sources
(`DFMROOT_SCHEME`, `DFMROOT_ROOT`, the entry suffix tags, `BURN_SCHEME`)
are modelled from the spec's "Address scheme tokens" / "suffix tags"
sections; no claim depends on their exact spellings.
-/

/-- Qt `QString::startsWith`: `leadsWith pre l` is true iff `pre` is an
initial segment of `l`. -/
def leadsWith : List Char → List Char → Bool
  | [], _ => true
  | _ :: _, [] => false
  | a :: s, b :: t => a = b && leadsWith s t

/-- Qt `QString::endsWith`, via `leadsWith` on the reversed lists. -/
def trailsWith (l suffixChars : List Char) : Bool :=
  leadsWith suffixChars.reverse l.reverse

/-- Qt `QString::contains` (substring containment). -/
def containsSub (hay needle : List Char) : Bool :=
  if leadsWith needle hay then true
  else
    match hay with
    | [] => false
    | _ :: t => containsSub t needle

/-- Space characters recognised by `QChar::isSpace` (ASCII fragment). -/
def isQtSpace (c : Char) : Bool :=
  c = ' ' || c = '\t' || c = '\n' || c = '\r' || c = '\x0b' || c = '\x0c'

/-- Qt `QString::trimmed` over a character list. -/
def trimmedL (l : List Char) : List Char :=
  ((l.dropWhile isQtSpace).reverse.dropWhile isQtSpace).reverse

/-- Qt `QString::trimmed`. -/
def trimmed (s : String) : String := ⟨trimmedL s.data⟩

/-- Qt `QString::mid n` (drop the first `n` characters). -/
def strDrop (s : String) (n : Nat) : String := ⟨s.data.drop n⟩

/-- Qt `QStringList::join(",")`. -/
def joinComma : List String → String
  | [] => ""
  | [s] => s
  | s :: rest => s ++ "," ++ joinComma rest

/-- String startsWith via `leadsWith`. -/
def strLeads (s pre : String) : Bool := leadsWith pre.data s.data

/-! ## Fixed tokens

`DFMROOT_SCHEME`/`DFMROOT_ROOT` and the suffix tags come from
`dfmrootfileinfo.h`, which is not part of the provided sources; they are
modelled from the spec ("Address scheme tokens", "Virtual-root entry
suffix tags"). -/

def DFMROOT_SCHEME : String := "dfmroot"
def DFMROOT_ROOT : String := "dfmroot:///"
def SUFFIX_USRDIR : String := "userdir"
def SUFFIX_UDISKS : String := "localdisk"
def SUFFIX_GVFSMP : String := "gvfsmp"
def SUFFIX_STASHED_REMOTE : String := "stashed"
def BURN_SCHEME : String := "burn"

/-! ## Visibility policy (`ignoreBlkDevice`, dfmrootcontroller.cpp:63-132) -/

/-- Partition types from `DBlockPartition::Type`; the five extended/container
types named in the source's switch, plus representatives of the rest. -/
inductive PartitionType
  | Empty
  | Fat12
  | Win95_Extended_LBA
  | Linux_extended
  | DRDOS_sec_extend
  | Multiuser_DOS_extend
  | Extended
  | LinuxNative
  | UnknownType
deriving DecidableEq

/-- Snapshot of a `DBlockDevice` as read by the controller. -/
structure BlockDevice where
  hintIgnore : Bool
  hintSystem : Bool
  isEncrypted : Bool
  hasPartition : Bool
  /-- result of `DDiskManager::createBlockPartition(...)->eType()`;
  `none` when partition creation fails (null pointer). -/
  partitionType : Option PartitionType
  hasFileSystem : Bool
  isLoopDevice : Bool
  cryptoBackingDevice : String
  hasPartitionTable : Bool
  size : Nat
  idUUID : String
  device : String
  mountPoints : List String
deriving DecidableEq

/-- Snapshot of the parent `DDiskDevice` (drive). -/
structure DiskDrive where
  removable : Bool
  mediaCompatibility : List String
deriving DecidableEq

/-- Application-level configuration read through
`DFMApplication::genericAttribute` and the smb/policy switches. -/
structure AppConfig where
  hideLoopPartitions : Bool
  hiddenSystemPartition : Bool
  alwaysShowOfflineRemoteConnections : Bool
  integrationMode : Bool
  dtkPolicySupport : Bool
deriving DecidableEq

/-- The source's `drv->mediaCompatibility().join(",").contains("optical")`. -/
def driveHasOpticalMedia (drv : DiskDrive) : Bool :=
  containsSub (joinComma drv.mediaCompatibility).data "optical".data

/-- The switch on `DBlockPartition::Type` (dfmrootcontroller.cpp:84-96):
the five extended/container partition types are hidden. -/
def isExtendedPartitionType (t : PartitionType) : Bool :=
  match t with
  | .Win95_Extended_LBA => true
  | .Linux_extended => true
  | .DRDOS_sec_extend => true
  | .Multiuser_DOS_extend => true
  | .Extended => true
  | _ => false

/-- The `blk->hasPartition()` block of `ignoreBlkDevice`: hides when the
partition object could be created and its type is extended/container. -/
def partitionHides (blk : BlockDevice) : Bool :=
  if blk.hasPartition then
    match blk.partitionType with
    | some t => isExtendedPartitionType t
    | none => false
  else false

/-- Shallow embedding of `ignoreBlkDevice` (dfmrootcontroller.cpp:63-132).
Returns `true` when the device is to be hidden. -/
def ignoreBlkDevice (cfg : AppConfig) (blk : BlockDevice) (drv : DiskDrive) : Bool :=
  if blk.hintIgnore then true
  else if driveHasOpticalMedia drv then false
  else if blk.isEncrypted then false
  else if partitionHides blk then true
  else if blk.hasFileSystem then
    if blk.isLoopDevice then cfg.hideLoopPartitions
    else if blk.cryptoBackingDevice.length > 1 then true
    else false
  else
    if blk.hasPartitionTable then true
    else if !drv.removable then true
    else if blk.size < 1024 then true
    else false

/-- Visibility is the negation of `ignoreBlkDevice`. -/
def visible (cfg : AppConfig) (blk : BlockDevice) (drv : DiskDrive) : Bool :=
  !ignoreBlkDevice cfg blk drv

/-- The precedence-ordered rule that decided visibility; one tag per
logged branch of `ignoreBlkDevice`. -/
inductive VisibilityRule
  | byHintIgnore
  | byOpticalDrive
  | byEncryptedShell
  | byExtendedPartitionType
  | byHideLoopSwitch
  | byCleartextProxied
  | byFilesystemShown
  | byPartitionTable
  | byUnremovableDrive
  | bySizeThreshold
  | byDefaultShown
deriving DecidableEq

/-- `ignoreBlkDevice` instrumented with the branch that decided, following
the source's `qInfo` logging one-to-one. -/
def ignoreBlkDeviceWithRule (cfg : AppConfig) (blk : BlockDevice) (drv : DiskDrive) :
    Bool × VisibilityRule :=
  if blk.hintIgnore then (true, .byHintIgnore)
  else if driveHasOpticalMedia drv then (false, .byOpticalDrive)
  else if blk.isEncrypted then (false, .byEncryptedShell)
  else if partitionHides blk then (true, .byExtendedPartitionType)
  else if blk.hasFileSystem then
    if blk.isLoopDevice then (cfg.hideLoopPartitions, .byHideLoopSwitch)
    else if blk.cryptoBackingDevice.length > 1 then (true, .byCleartextProxied)
    else (false, .byFilesystemShown)
  else
    if blk.hasPartitionTable then (true, .byPartitionTable)
    else if !drv.removable then (true, .byUnremovableDrive)
    else if blk.size < 1024 then (true, .bySizeThreshold)
    else (false, .byDefaultShown)

/-- The instrumented policy agrees with the plain one. -/
theorem ignoreBlkDeviceWithRule_fst (cfg : AppConfig) (blk : BlockDevice) (drv : DiskDrive) :
    (ignoreBlkDeviceWithRule cfg blk drv).1 = ignoreBlkDevice cfg blk drv := by
  unfold ignoreBlkDeviceWithRule ignoreBlkDevice
  split_ifs <;> rfl

/-- Spec-side visibility function, written from the spec's numbered
precedence list (spec.md section 4.2, rules 1-6), to be compared with the
source-derived `visible`. -/
def visibleSpec (cfg : AppConfig) (blk : BlockDevice) (drv : DiskDrive) : Bool :=
  if blk.hintIgnore then false
  else if driveHasOpticalMedia drv then true
  else if blk.isEncrypted then true
  else if partitionHides blk then false
  else if blk.hasFileSystem then
    if blk.isLoopDevice then !cfg.hideLoopPartitions
    else if blk.cryptoBackingDevice.length > 1 then false
    else true
  else
    if blk.hasPartitionTable then false
    else if !drv.removable then false
    else if blk.size < 1024 then false
    else true

/-- C1: the visibility decision is a pure function of the device and drive
snapshots and follows exactly the spec's first-match-wins precedence:
ignore hint hides; optical capability shows; encrypted shell shows;
extended/container partition type hides; with a filesystem a loop device
follows the negated hide-loop switch, a cleartext counterpart is hidden and
anything else shows; without a filesystem a partition table, a
non-removable drive, or a size below the threshold hides, else shows. -/
theorem visible_matches_spec_precedence (cfg : AppConfig) (blk : BlockDevice)
    (drv : DiskDrive) : visible cfg blk drv = visibleSpec cfg blk drv := by
  unfold visible ignoreBlkDevice visibleSpec
  split_ifs <;> rfl

/-! ## Claim C8: the 512-byte, no-filesystem, non-removable scenario -/

/-- A 512-byte partition with no filesystem on a non-removable drive,
carrying none of the ignore/optical/encryption attributes. -/
def blk512 : BlockDevice :=
  { hintIgnore := false
    hintSystem := false
    isEncrypted := false
    hasPartition := false
    partitionType := none
    hasFileSystem := false
    isLoopDevice := false
    cryptoBackingDevice := ""
    hasPartitionTable := false
    size := 512
    idUUID := ""
    device := "/dev/sda3"
    mountPoints := [] }

/-- A non-removable drive with no optical capability. -/
def drvFixed : DiskDrive := { removable := false, mediaCompatibility := [] }

/-- A default configuration (all switches off). -/
def cfgDefault : AppConfig :=
  { hideLoopPartitions := false
    hiddenSystemPartition := false
    alwaysShowOfflineRemoteConnections := false
    integrationMode := false
    dtkPolicySupport := false }

/-- C8 counterexample: for the concrete 512-byte filesystem-less device on a
non-removable drive the decision is indeed hidden, but the rule that decides
it is the non-removable-drive rule, not the size-threshold rule claimed. -/
theorem size512_rule_counterexample :
    blk512.size = 512 ∧ drvFixed.removable = false ∧ blk512.hasFileSystem = false ∧
    blk512.hasPartitionTable = false ∧ blk512.hintIgnore = false ∧
    blk512.isEncrypted = false ∧ driveHasOpticalMedia drvFixed = false ∧
    ignoreBlkDeviceWithRule cfgDefault blk512 drvFixed =
      (true, VisibilityRule.byUnremovableDrive) ∧
    VisibilityRule.byUnremovableDrive ≠ VisibilityRule.bySizeThreshold := by
  decide

/-- C8 (amended): for every block device on a non-removable drive that
exposes no filesystem, has no partition table, carries no
ignore/optical/encryption attribute and no extended-type partition, and
whose size is 512 bytes, the decision is hidden, and the precedence-ordered
rule that decides it is the non-removable-drive rule, which shadows the
size-threshold check. -/
theorem size512_hidden_by_unremovable_rule (cfg : AppConfig) (blk : BlockDevice)
    (drv : DiskDrive)
    (hIgnore : blk.hintIgnore = false)
    (hOptical : driveHasOpticalMedia drv = false)
    (hEncrypted : blk.isEncrypted = false)
    (hPart : partitionHides blk = false)
    (hFs : blk.hasFileSystem = false)
    (hTable : blk.hasPartitionTable = false)
    (hRemovable : drv.removable = false)
    (hSize : blk.size = 512) :
    ignoreBlkDeviceWithRule cfg blk drv = (true, VisibilityRule.byUnremovableDrive) := by
  unfold ignoreBlkDeviceWithRule
  rw [hIgnore, hOptical, hEncrypted, hPart, hFs, hTable, hRemovable]
  rfl

/-- Witness for C8's amended theorem at the concrete 512-byte device. -/
theorem size512_hidden_by_unremovable_rule_witness :
    ignoreBlkDeviceWithRule cfgDefault blk512 drvFixed =
      (true, VisibilityRule.byUnremovableDrive) :=
  size512_hidden_by_unremovable_rule cfgDefault blk512 drvFixed
    (by decide) (by decide) (by decide) (by decide) (by decide) (by decide)
    (by decide) (by decide)

/-! ## Address model (`DUrl`, durl.cpp)

Paths and scheme tokens are modelled as `List Char`; a `DUrl` carries the
two components `QUrl`-equality compares in this file (scheme and path). -/

/-- The recognized closed scheme set (durl.cpp:15-20). -/
def schemeListD : List (List Char) :=
  ["trash".data, "recent".data, "bookmark".data, "file".data,
   "computer".data, "search".data]

/-- Address value: scheme token plus path. -/
structure DUrl where
  scheme : List Char
  path : List Char
deriving DecidableEq

/-- Serialized form (`DUrl::toString`): the scheme token, a colon and the
path. -/
def serialized (u : DUrl) : List Char := u.scheme ++ ':' :: u.path

/-- Qt `QString::remove(str)` body: repeatedly search for `sub` from the
current position and delete it.  Structural fuel encoding; the fuel is the
length of the scanned list, which bounds the recursion depth. -/
def removeAllF (sub : List Char) : Nat → List Char → List Char
  | 0, _ => []
  | _ + 1, [] => []
  | fuel + 1, c :: rest =>
    if leadsWith sub (c :: rest) then removeAllF sub fuel (rest.drop (sub.length - 1))
    else c :: removeAllF sub fuel rest

/-- Qt `QString::remove(str)`; an empty pattern is a no-op. -/
def removeAll (s sub : List Char) : List Char :=
  if sub.isEmpty then s else removeAllF sub s.length s

/-- Shallow embedding of `DUrl::operator==` (durl.cpp:223-248). -/
def durlEq (u v : DUrl) : Bool :=
  if u = v then true
  else if v.scheme ∉ schemeListD then false
  else if Nat.dist (serialized u).length (serialized v).length ≠ 1 then false
  else if Nat.dist u.path.length v.path.length ≠ 1 then false
  else if u.path.length > v.path.length then decide (removeAll u.path v.path = ['/'])
  else decide (removeAll v.path u.path = ['/'])

theorem leadsWith_iff : ∀ (s l : List Char), leadsWith s l = true ↔ ∃ t, l = s ++ t
  | [], l => by simp [leadsWith]
  | _ :: _, [] => by simp [leadsWith]
  | a :: s, b :: t => by
    simp only [leadsWith, Bool.and_eq_true, decide_eq_true_eq, List.cons_append,
      List.cons.injEq]
    rw [leadsWith_iff s t]
    constructor
    · rintro ⟨rfl, u, rfl⟩
      exact ⟨u, rfl, rfl⟩
    · rintro ⟨u, rfl, rfl⟩
      exact ⟨rfl, u, rfl⟩

theorem leadsWith_refl (s : List Char) : leadsWith s s = true :=
  (leadsWith_iff s s).mpr ⟨[], by simp⟩

/-- Prepending `x` and appending `d` to the same list can only agree when
the two new characters agree. -/
theorem cons_eq_append_single : ∀ {s : List Char} {x d : Char},
    x :: s = s ++ [d] → d = x := by
  intro s
  induction s with
  | nil =>
    intro x d h
    simp only [List.nil_append, List.cons.injEq, and_true] at h
    exact h.symm
  | cons a t ih =>
    intro x d h
    rw [List.cons_append] at h
    injection h with hx h2
    subst hx
    exact (ih h2).trans rfl

/-- `removeAllF` does not depend on the fuel as long as it dominates the
length of the scanned list. -/
theorem removeAllF_fuel (sub : List Char) : ∀ (f1 : Nat) (l : List Char) (f2 : Nat),
    l.length ≤ f1 → l.length ≤ f2 → removeAllF sub f1 l = removeAllF sub f2 l := by
  intro f1
  induction f1 with
  | zero =>
    intro l f2 h1 _
    have hl : l = [] := List.length_eq_zero.mp (Nat.le_zero.mp h1)
    subst hl
    cases f2 <;> simp [removeAllF]
  | succ f ih =>
    intro l f2 h1 h2
    cases l with
    | nil => cases f2 <;> simp [removeAllF]
    | cons c rest =>
      cases f2 with
      | zero => simp at h2
      | succ f2' =>
        simp only [removeAllF]
        by_cases hp : leadsWith sub (c :: rest) = true
        · rw [if_pos hp, if_pos hp]
          have hd : (rest.drop (sub.length - 1)).length ≤ rest.length := by
            rw [List.length_drop]; omega
          exact ih _ _ (by simp at h1; omega) (by simp at h2; omega)
        · rw [if_neg hp, if_neg hp]
          have := ih rest f2' (by simp at h1; omega) (by simp at h2; omega)
          rw [this]

/-- With fuel equal to the length, removing `sub` from a list of the same
length gives the empty list exactly when the list is `sub` itself. -/
theorem removeAllF_eq_nil_iff (sub : List Char) (hsub : sub ≠ []) :
    ∀ l : List Char, l.length = sub.length →
      (removeAllF sub l.length l = [] ↔ l = sub) := by
  intro l hl
  cases l with
  | nil =>
    cases sub with
    | nil => exact absurd rfl hsub
    | cons s0 s' => simp at hl
  | cons c rest =>
    simp only [List.length_cons, removeAllF]
    by_cases hp : leadsWith sub (c :: rest) = true
    · obtain ⟨t, ht⟩ := (leadsWith_iff _ _).mp hp
      have hlt : t = [] := by
        have := congrArg List.length ht
        simp at this
        have : t.length = 0 := by simp at hl; omega
        exact List.length_eq_zero.mp this
      subst hlt
      rw [List.append_nil] at ht
      rw [if_pos hp]
      have hdrop : rest.drop (sub.length - 1) = [] := by
        apply List.drop_eq_nil_of_le
        simp at hl
        omega
      rw [hdrop]
      cases rest.length <;> simp [removeAllF, ht]
    · rw [if_neg hp]
      constructor
      · intro h
        exact absurd h (by simp)
      · intro h
        subst h
        exact absurd (leadsWith_refl _) hp

/-- Exact shape of the one-separator tolerance implemented by
`QString::remove`: with a length gap of one, removing every occurrence of
the shorter path from the longer one leaves exactly `"/"` iff the longer
path is the shorter one with a single separator prepended or appended —
except in the one corner where the shorter path is `"/"` and the longer
`"//"`, since there both occurrences get removed. -/
theorem removeAll_slash_iff (shorter longer : List Char)
    (hlen : longer.length = shorter.length + 1) :
    removeAll longer shorter = ['/'] ↔
      ((longer = '/' :: shorter ∨ longer = shorter ++ ['/']) ∧
       ¬(shorter = ['/'] ∧ longer = ['/', '/'])) := by
  cases shorter with
  | nil =>
    cases longer with
    | nil => simp at hlen
    | cons c rest =>
      have hr : rest = [] := by simpa using hlen
      subst hr
      simp [removeAll]
  | cons s0 s' =>
    cases longer with
    | nil => simp at hlen
    | cons c rest =>
      have hrl : rest.length = s'.length + 1 := by simpa using hlen
      have hred : removeAll (c :: rest) (s0 :: s') =
          removeAllF (s0 :: s') (rest.length + 1) (c :: rest) := by
        simp [removeAll]
      rw [hred]
      simp only [removeAllF]
      by_cases hp : leadsWith (s0 :: s') (c :: rest) = true
      · rw [if_pos hp]
        obtain ⟨t, ht⟩ := (leadsWith_iff _ _).mp hp
        have ht1 : t.length = 1 := by
          have hlc := congrArg List.length ht
          simp only [List.length_cons, List.length_append] at hlc
          omega
        obtain ⟨d, rfl⟩ : ∃ d, t = [d] := by
          cases t with
          | nil => simp at ht1
          | cons d t' =>
            cases t' with
            | nil => exact ⟨d, rfl⟩
            | cons _ _ => simp at ht1
        rw [List.cons_append] at ht
        injection ht with hc hrest
        have hdrop : rest.drop ((s0 :: s').length - 1) = [d] := by
          rw [hrest, show ((s0 :: s') : List Char).length - 1 = s'.length from by simp]
          exact List.drop_left s' [d]
        rw [hdrop]
        have hfuel : removeAllF (s0 :: s') rest.length [d] = removeAllF (s0 :: s') 1 [d] :=
          removeAllF_fuel _ _ _ _ (by simp [hrl]) (by simp)
        rw [hfuel]
        simp only [removeAllF]
        by_cases hp2 : leadsWith (s0 :: s') [d] = true
        · rw [if_pos hp2]
          obtain ⟨t2, ht2⟩ := (leadsWith_iff _ _).mp hp2
          have hlen2 : s'.length = 0 ∧ t2.length = 0 := by
            have h5 := congrArg List.length ht2
            simp only [List.length_cons, List.length_append, List.length_nil] at h5
            omega
          have hs' : s' = [] := List.length_eq_zero.mp hlen2.1
          have ht2e : t2 = [] := List.length_eq_zero.mp hlen2.2
          have hds : d = s0 := by
            rw [hs', ht2e] at ht2
            simpa using ht2
          constructor
          · intro h
            simp at h
          · rintro ⟨hdisj, hexcl⟩
            have hs0 : s0 = '/' := by
              rcases hdisj with h1 | h1
              · rw [hc, hrest, hs', hds] at h1
                simp only [List.nil_append, List.cons.injEq] at h1
                exact h1.1
              · rw [hc, hrest, hs', hds] at h1
                simp only [List.nil_append, List.cons_append, List.cons.injEq] at h1
                exact h1.2.1.symm ▸ h1.2.1
            exfalso
            apply hexcl
            refine ⟨by rw [hs', hs0], ?_⟩
            rw [hc, hrest, hs', hds, hs0]
            rfl
        · rw [if_neg hp2]
          constructor
          · intro h
            have hd : d = '/' := by simpa using h
            refine ⟨Or.inr ?_, ?_⟩
            · rw [hc, hrest, hd]
              simp
            · rintro ⟨hsh, hlg⟩
              apply hp2
              have hL : s'.length = 0 := by
                have := congrArg List.length hsh
                simpa using this
              have hs'e : s' = [] := List.length_eq_zero.mp hL
              have hs0 : s0 = '/' := by
                rw [hs'e] at hsh
                simpa using hsh
              rw [hs0, hs'e, hd]
              exact leadsWith_refl ['/']
          · rintro ⟨hdisj, _⟩
            rcases hdisj with h1 | h1
            · rw [hc, hrest] at h1
              injection h1 with ha hb
              have hd : d = s0 := cons_eq_append_single hb.symm
              rw [hd, ha]
            · rw [hc, hrest] at h1
              simp only [List.cons_append, List.cons.injEq, true_and] at h1
              have hd : d = '/' := by
                have h2 := List.append_cancel_left h1
                simpa using h2
              rw [hd]
      · rw [if_neg hp]
        have hnil := removeAllF_eq_nil_iff (s0 :: s') (by simp) rest (by simp [hrl])
        constructor
        · intro h
          injection h with hc hX
          have hrest := hnil.mp hX
          refine ⟨Or.inl (by rw [hc, hrest]), ?_⟩
          rintro ⟨hsh, hlg⟩
          apply hp
          rw [hsh]
          injection hlg with hlc hlr
          rw [hlc, hlr]
          simp [leadsWith]
        · rintro ⟨hdisj, _⟩
          rcases hdisj with h1 | h1
          · injection h1 with hc hrest
            have hX : removeAllF (s0 :: s') rest.length rest = [] := hnil.mpr hrest
            rw [hX, hc]
          · exact absurd ((leadsWith_iff _ _).mpr ⟨['/'], h1⟩) hp

/-- Spec-side description of the tolerated single-separator variants, as
forced by the implementation: one path is the other with a single
separator prepended or appended, except the `"/"` versus `"//"` corner
where the implementation reports inequality. -/
def sepVariantOk (p q : List Char) : Prop :=
  (p = '/' :: q ∨ p = q ++ ['/'] ∨ q = '/' :: p ∨ q = p ++ ['/']) ∧
  ¬(p = ['/', '/'] ∧ q = ['/']) ∧ ¬(q = ['/', '/'] ∧ p = ['/'])

theorem sepVariantOk_dist {p q : List Char} (h : sepVariantOk p q) :
    Nat.dist p.length q.length = 1 := by
  obtain ⟨h1, -, -⟩ := h
  rcases h1 with rfl | rfl | rfl | rfl <;>
    · simp only [List.length_cons, List.length_append, List.length_singleton,
        List.length_nil, Nat.dist]
      omega

/-- C2 counterexample: two computer-scheme addresses whose paths differ by a
single LEADING separator are reported equal by `DUrl::operator==`, although
they are not structurally equal and neither path is the other with a
trailing separator appended. -/
theorem durlEq_claim_counterexample :
    durlEq ⟨"computer".data, "/ab".data⟩ ⟨"computer".data, "ab".data⟩ = true ∧
    (DUrl.mk "computer".data "/ab".data) ≠ ⟨"computer".data, "ab".data⟩ ∧
    "/ab".data ≠ "ab".data ++ ['/'] ∧
    "ab".data ≠ "/ab".data ++ ['/'] := by
  decide

/-- C2 (amended): for addresses with recognized schemes, equality holds
exactly when they are structurally equal, or when the serialized forms
differ in length by exactly one character and one path is the other with a
single separator prepended or appended (the `"//"` versus `"/"` pair being
the one excluded corner).  In particular equality never holds when the
serialized forms differ in length by two or more characters. -/
theorem durlEq_tolerance_characterization (u v : DUrl)
    (hu : u.scheme ∈ schemeListD) (hv : v.scheme ∈ schemeListD) :
    durlEq u v = true ↔
      u = v ∨ (Nat.dist (serialized u).length (serialized v).length = 1 ∧
               sepVariantOk u.path v.path) := by
  unfold durlEq
  by_cases he : u = v
  · simp [he]
  · rw [if_neg he, if_neg (not_not_intro hv)]
    by_cases hs : Nat.dist (serialized u).length (serialized v).length = 1
    · rw [if_neg (not_not_intro hs)]
      by_cases hpd : Nat.dist u.path.length v.path.length = 1
      · rw [if_neg (not_not_intro hpd)]
        by_cases hgt : u.path.length > v.path.length
        · rw [if_pos hgt]
          have hlen : u.path.length = v.path.length + 1 := by
            unfold Nat.dist at hpd
            omega
          simp only [decide_eq_true_eq]
          rw [removeAll_slash_iff v.path u.path hlen]
          constructor
          · rintro ⟨hd, hex⟩
            refine Or.inr ⟨hs, ?_, ?_, ?_⟩
            · rcases hd with h | h
              · exact Or.inl h
              · exact Or.inr (Or.inl h)
            · rintro ⟨hp2, hq2⟩
              exact hex ⟨hq2, hp2⟩
            · rintro ⟨hq2, hp2⟩
              rw [hp2, hq2] at hlen
              simp at hlen
          · rintro (rfl | ⟨-, hsep⟩)
            · exact absurd rfl he
            · obtain ⟨hd4, hex1, hex2⟩ := hsep
              constructor
              · rcases hd4 with h | h | h | h
                · exact Or.inl h
                · exact Or.inr h
                · exfalso
                  have := congrArg List.length h
                  simp only [List.length_cons] at this
                  omega
                · exfalso
                  have := congrArg List.length h
                  simp only [List.length_append, List.length_singleton] at this
                  omega
              · rintro ⟨hvp, hup⟩
                exact hex1 ⟨hup, hvp⟩
        · rw [if_neg hgt]
          have hlen : v.path.length = u.path.length + 1 := by
            unfold Nat.dist at hpd
            omega
          simp only [decide_eq_true_eq]
          rw [removeAll_slash_iff u.path v.path hlen]
          constructor
          · rintro ⟨hd, hex⟩
            refine Or.inr ⟨hs, ?_, ?_, ?_⟩
            · rcases hd with h | h
              · exact Or.inr (Or.inr (Or.inl h))
              · exact Or.inr (Or.inr (Or.inr h))
            · rintro ⟨hp2, hq2⟩
              rw [hp2, hq2] at hlen
              simp at hlen
            · rintro ⟨hq2, hp2⟩
              exact hex ⟨hp2, hq2⟩
          · rintro (rfl | ⟨-, hsep⟩)
            · exact absurd rfl he
            · obtain ⟨hd4, hex1, hex2⟩ := hsep
              constructor
              · rcases hd4 with h | h | h | h
                · exfalso
                  have := congrArg List.length h
                  simp only [List.length_cons] at this
                  omega
                · exfalso
                  have := congrArg List.length h
                  simp only [List.length_append, List.length_singleton] at this
                  omega
                · exact Or.inl h
                · exact Or.inr h
              · rintro ⟨hup, hvp⟩
                exact hex2 ⟨hvp, hup⟩
      · rw [if_pos hpd]
        constructor
        · intro h
          exact absurd h (by simp)
        · rintro (rfl | ⟨-, hsep⟩)
          · exact absurd rfl he
          · exact absurd (sepVariantOk_dist hsep) hpd
    · rw [if_pos hs]
      constructor
      · intro h
        exact absurd h (by simp)
      · rintro (rfl | ⟨hs1, -⟩)
        · exact absurd rfl he
        · exact absurd hs1 hs

/-- Witness for the C2 characterization at a concrete trailing-separator
pair of trash-scheme addresses. -/
theorem durlEq_tolerance_characterization_witness :
    durlEq ⟨"trash".data, "/x".data⟩ ⟨"trash".data, "/x/".data⟩ = true ↔
      (DUrl.mk "trash".data "/x".data) = ⟨"trash".data, "/x/".data⟩ ∨
      (Nat.dist (serialized ⟨"trash".data, "/x".data⟩).length
          (serialized ⟨"trash".data, "/x/".data⟩).length = 1 ∧
       sepVariantOk "/x".data "/x/".data) :=
  durlEq_tolerance_characterization ⟨"trash".data, "/x".data⟩
    ⟨"trash".data, "/x/".data⟩ (by decide) (by decide)

/-! ## Watch session (`DFMRootFileWatcherPrivate`, dfmrootcontroller.cpp) -/

/-- A simple scheme/path pair for the controller and watcher urls (the
components the watcher and enumerator inspect). -/
structure RUrl where
  scheme : String
  path : String
deriving DecidableEq

/-- A raw block device paired with its dbus object path and its drive, as
enumerated by `DDiskManager::blockDevices`. -/
structure BlockDevEntry where
  /-- the dbus path, e.g. `/org/freedesktop/UDisks2/block_devices/sda1` -/
  dbusPath : String
  blk : BlockDevice
  drv : DiskDrive

/-- The member-signal selector passed to `handleGhostSignal`
(`DAbstractFileWatcher::SignalType1`). -/
inductive SignalKind
  | fileDeleted
  | subfileCreated
  | fileAttributeChanged
  | fileMoved
deriving DecidableEq

/-- Events emitted by the watcher, addressed by the serialized url. -/
inductive WatchEvent
  | deleted (url : String)
  | created (url : String)
  | attributeChanged (url : String)
deriving DecidableEq

/-- Signal connections registered by the watcher; per-device attribute
connections are tagged with the device's virtual-root url. -/
inductive ConnTag
  | mountAdded
  | mountRemoved
  | volumeAdded
  | blockDeviceAdded
  | blockDeviceRemoved
  | cleartextDeviceChanged (url : String)
  | idLabelChanged (url : String)
  | mountPointsChanged (url : String)
  | sizeChanged (url : String)
  | idTypeChanged (url : String)
deriving DecidableEq

/-- Internal state of `DFMRootFileWatcherPrivate`. -/
structure WatcherSession where
  started : Bool
  vfsmgrAllocated : Bool
  udisksmgrAllocated : Bool
  udisksWatching : Bool
  connections : List ConnTag
  blkdevs : Nat
  connectionsurl : List String
deriving DecidableEq

/-- The idle session as constructed (`DAbstractFileWatcherPrivate`). -/
def idleSession : WatcherSession :=
  { started := false
    vfsmgrAllocated := false
    udisksmgrAllocated := false
    udisksWatching := false
    connections := []
    blkdevs := 0
    connectionsurl := [] }

/-- `DFMRootFileWatcherPrivate::initBlockDevConnections`
(dfmrootcontroller.cpp:497-549): retain the device (and, when encrypted,
its cleartext device), then register per-device attribute connections
unless the dedup key (the device url, with an `_en` suffix for encrypted
devices) is already present. -/
def initBlockDevConnections (d : BlockDevEntry) (st : WatcherSession) : WatcherSession :=
  let st1 := { st with blkdevs := st.blkdevs + 1 }
  let urlstr := DFMROOT_ROOT ++ strDrop d.dbusPath 38 ++ "." ++ SUFFIX_UDISKS
  if d.blk.isEncrypted then
    let st2 := { st1 with blkdevs := st1.blkdevs + 1 }
    if (urlstr ++ "_en") ∈ st2.connectionsurl then st2
    else
      { st2 with
        connections := st2.connections ++
          [.cleartextDeviceChanged urlstr, .idLabelChanged urlstr,
           .mountPointsChanged urlstr]
        connectionsurl := st2.connectionsurl ++ [urlstr ++ "_en"] }
  else
    if urlstr ∈ st1.connectionsurl then st1
    else
      { st1 with
        connections := st1.connections ++
          [.idLabelChanged urlstr, .mountPointsChanged urlstr, .sizeChanged urlstr,
           .idTypeChanged urlstr, .cleartextDeviceChanged urlstr]
        connectionsurl := st1.connectionsurl ++ [urlstr] }

namespace RootWatcher

/-- `DFMRootFileWatcherPrivate::start` (dfmrootcontroller.cpp:551-721).
`target` is the watcher's url (`q->fileUrl()`); `devices` is the current
snapshot from `udisksmgr->blockDevices`. -/
def start (cfg : AppConfig) (target : RUrl) (devices : List BlockDevEntry)
    (st : WatcherSession) : Bool × WatcherSession :=
  if target.path ≠ "/" ∨ st.started then (false, st)
  else
    let st1 :=
      { st with
        vfsmgrAllocated := true
        udisksmgrAllocated := true
        udisksWatching := true
        connections := st.connections ++
          [.mountAdded, .mountRemoved, .volumeAdded,
           .blockDeviceAdded, .blockDeviceRemoved] }
    let st2 := devices.foldl
      (fun s d => if ignoreBlkDevice cfg d.blk d.drv then s
                  else initBlockDevConnections d s) st1
    (true, { st2 with started := true })

/-- `DFMRootFileWatcherPrivate::stop` (dfmrootcontroller.cpp:723-744):
fails when not started; otherwise disconnects everything and clears the
session state. -/
def stop (st : WatcherSession) : Bool × WatcherSession :=
  if !st.started then (false, st)
  else
    (true,
      { st with
        udisksWatching := false
        connections := []
        connectionsurl := []
        blkdevs := 0
        vfsmgrAllocated := false
        udisksmgrAllocated := false
        started := false })

/-- `DFMRootFileWatcherPrivate::handleGhostSignal`
(dfmrootcontroller.cpp:746-770).  Returns the boolean result and the list
of emitted events; the `target` argument is unused by the source
(`Q_UNUSED(target)`). -/
def handleGhostSignal (target : RUrl) (signal : SignalKind) (url : RUrl) :
    Bool × List WatchEvent :=
  let path := url.path
  if strLeads path "/dev/loop" then
    if signal = .fileDeleted then
      (true, [.deleted (DFMROOT_ROOT ++ strDrop path 5 ++ "." ++ SUFFIX_UDISKS)])
    else if signal = .subfileCreated then
      (true, [])
    else (false, [])
  else (false, [])

end RootWatcher

namespace RootWatcher

theorem start_rejected (cfg : AppConfig) (target : RUrl) (devices : List BlockDevEntry)
    (st : WatcherSession) (h : target.path ≠ "/" ∨ st.started = true) :
    start cfg target devices st = (false, st) := by
  unfold start
  rw [if_pos h]

theorem start_fst_true (cfg : AppConfig) (target : RUrl) (devices : List BlockDevEntry)
    (st : WatcherSession) (h1 : st.started = false) (h2 : target.path = "/") :
    (start cfg target devices st).1 = true := by
  unfold start
  rw [if_neg (by simp [h1, h2])]

theorem start_snd_started (cfg : AppConfig) (target : RUrl) (devices : List BlockDevEntry)
    (st : WatcherSession) (h1 : st.started = false) (h2 : target.path = "/") :
    (start cfg target devices st).2.started = true := by
  unfold start
  rw [if_neg (by simp [h1, h2])]

theorem stop_components (st : WatcherSession) (h : st.started = true) :
    (stop st).1 = true ∧ (stop st).2.connections = [] ∧
    (stop st).2.connectionsurl = [] ∧ (stop st).2.blkdevs = 0 ∧
    (stop st).2.started = false := by
  unfold stop
  rw [if_neg (by simp [h])]
  exact ⟨rfl, rfl, rfl, rfl, rfl⟩

theorem stop_rejected (st : WatcherSession) (h : st.started = false) :
    stop st = (false, st) := by
  unfold stop
  rw [if_pos (by simp [h])]

end RootWatcher

/-- C3 counterexample: `start` only inspects the path component of the
watcher's url, so an idle session whose target is `file:/` — which is not
the virtual root — is accepted (returns `true`), contradicting the claim
that a target other than the virtual root is rejected. -/
theorem watcher_start_nonroot_target_counterexample :
    (RootWatcher.start cfgDefault ⟨"file", "/"⟩ [] idleSession).1 = true ∧
    (RUrl.mk "file" "/") ≠ ⟨DFMROOT_SCHEME, "/"⟩ := by
  decide

/-- C3 (amended): `start` returns false and changes no session state
whenever its target address's PATH is not "/" (the scheme is not
inspected) or the session is already started; starting an idle session
whose target path is "/" returns true and marks it started, so two
consecutive `start` calls return true then false; after that, `stop`
succeeds (returns true) exactly once, clearing all registered listeners,
and a second `stop` returns false. -/
theorem watcher_lifecycle (cfg : AppConfig) (target : RUrl)
    (devices : List BlockDevEntry) (st : WatcherSession) :
    ((target.path ≠ "/" ∨ st.started = true) →
      RootWatcher.start cfg target devices st = (false, st)) ∧
    (st.started = false → target.path = "/" →
      (RootWatcher.start cfg target devices st).1 = true ∧
      (RootWatcher.start cfg target devices st).2.started = true ∧
      (RootWatcher.start cfg target devices
        (RootWatcher.start cfg target devices st).2).1 = false ∧
      (RootWatcher.stop (RootWatcher.start cfg target devices st).2).1 = true ∧
      (RootWatcher.stop (RootWatcher.start cfg target devices st).2).2.connections = [] ∧
      (RootWatcher.stop (RootWatcher.start cfg target devices st).2).2.connectionsurl = [] ∧
      (RootWatcher.stop (RootWatcher.start cfg target devices st).2).2.blkdevs = 0 ∧
      (RootWatcher.stop
        (RootWatcher.stop (RootWatcher.start cfg target devices st).2).2).1 = false) := by
  refine ⟨fun h => RootWatcher.start_rejected cfg target devices st h, fun h1 h2 => ?_⟩
  have hsnd := RootWatcher.start_snd_started cfg target devices st h1 h2
  have hstop := RootWatcher.stop_components _ hsnd
  refine ⟨RootWatcher.start_fst_true cfg target devices st h1 h2, hsnd, ?_, hstop.1,
    hstop.2.1, hstop.2.2.1, hstop.2.2.2.1, ?_⟩
  · rw [RootWatcher.start_rejected cfg target devices _ (Or.inr hsnd)]
  · rw [RootWatcher.stop_rejected _ hstop.2.2.2.2]

/-- Witness for the C3 amended theorem at the virtual root with no devices,
starting from the idle session. -/
theorem watcher_lifecycle_witness :
    ((((RUrl.mk DFMROOT_SCHEME "/").path ≠ "/" ∨ idleSession.started = true) →
      RootWatcher.start cfgDefault ⟨DFMROOT_SCHEME, "/"⟩ [] idleSession =
        (false, idleSession)) ∧
    (idleSession.started = false → (RUrl.mk DFMROOT_SCHEME "/").path = "/" →
      (RootWatcher.start cfgDefault ⟨DFMROOT_SCHEME, "/"⟩ [] idleSession).1 = true ∧
      (RootWatcher.start cfgDefault ⟨DFMROOT_SCHEME, "/"⟩ [] idleSession).2.started = true ∧
      (RootWatcher.start cfgDefault ⟨DFMROOT_SCHEME, "/"⟩ []
        (RootWatcher.start cfgDefault ⟨DFMROOT_SCHEME, "/"⟩ [] idleSession).2).1 = false ∧
      (RootWatcher.stop
        (RootWatcher.start cfgDefault ⟨DFMROOT_SCHEME, "/"⟩ [] idleSession).2).1 = true ∧
      (RootWatcher.stop
        (RootWatcher.start cfgDefault ⟨DFMROOT_SCHEME, "/"⟩ []
          idleSession).2).2.connections = [] ∧
      (RootWatcher.stop
        (RootWatcher.start cfgDefault ⟨DFMROOT_SCHEME, "/"⟩ []
          idleSession).2).2.connectionsurl = [] ∧
      (RootWatcher.stop
        (RootWatcher.start cfgDefault ⟨DFMROOT_SCHEME, "/"⟩ []
          idleSession).2).2.blkdevs = 0 ∧
      (RootWatcher.stop
        (RootWatcher.stop
          (RootWatcher.start cfgDefault ⟨DFMROOT_SCHEME, "/"⟩ []
            idleSession).2).2).1 = false)) :=
  watcher_lifecycle cfgDefault ⟨DFMROOT_SCHEME, "/"⟩ [] idleSession

/-- C4: the ghost-signal compensation path accepts a deleted signal for a
loop-device path by emitting a `deleted` event for the computed
loop-device address and returning true, accepts a created signal for a
loop-device path by returning true while emitting nothing, and rejects
(returns false with no event) any non-loop path and any other signal
kind. -/
theorem handleGhostSignal_loop_compensation (target url : RUrl) (signal : SignalKind) :
    (strLeads url.path "/dev/loop" = true →
      RootWatcher.handleGhostSignal target .fileDeleted url =
        (true, [.deleted (DFMROOT_ROOT ++ strDrop url.path 5 ++ "." ++ SUFFIX_UDISKS)]) ∧
      RootWatcher.handleGhostSignal target .subfileCreated url = (true, []) ∧
      (signal ≠ .fileDeleted → signal ≠ .subfileCreated →
        RootWatcher.handleGhostSignal target signal url = (false, []))) ∧
    (strLeads url.path "/dev/loop" = false →
      RootWatcher.handleGhostSignal target signal url = (false, [])) := by
  constructor
  · intro h
    refine ⟨?_, ?_, fun h1 h2 => ?_⟩
    · simp [RootWatcher.handleGhostSignal, h]
    · simp [RootWatcher.handleGhostSignal, h]
    · simp [RootWatcher.handleGhostSignal, h, h1, h2]
  · intro h
    simp [RootWatcher.handleGhostSignal, h]

/-- Witness for C4 at the concrete paths `/dev/loop5` (accepted, deleted
event emitted) and `/dev/sda1` (rejected). -/
theorem handleGhostSignal_loop_compensation_witness :
    RootWatcher.handleGhostSignal ⟨DFMROOT_SCHEME, "/"⟩ .fileDeleted
        ⟨"file", "/dev/loop5"⟩ =
      (true, [.deleted (DFMROOT_ROOT ++ strDrop "/dev/loop5" 5 ++ "." ++ SUFFIX_UDISKS)]) ∧
    RootWatcher.handleGhostSignal ⟨DFMROOT_SCHEME, "/"⟩ .fileAttributeChanged
        ⟨"file", "/dev/sda1"⟩ = (false, []) :=
  ⟨((handleGhostSignal_loop_compensation ⟨DFMROOT_SCHEME, "/"⟩ ⟨"file", "/dev/loop5"⟩
      SignalKind.fileDeleted).1 (by decide)).1,
   (handleGhostSignal_loop_compensation ⟨DFMROOT_SCHEME, "/"⟩ ⟨"file", "/dev/sda1"⟩
      SignalKind.fileAttributeChanged).2 (by decide)⟩

/-- C9: the ghost-signal handler ignores its target-address argument: any
two invocations agreeing on signal kind and path return the same boolean
and emit the same events; in particular a target different from the
virtual root is accepted for a loop-device deletion. -/
theorem handleGhostSignal_target_independent (t1 t2 : RUrl) (signal : SignalKind)
    (url : RUrl) :
    RootWatcher.handleGhostSignal t1 signal url =
      RootWatcher.handleGhostSignal t2 signal url ∧
    (RootWatcher.handleGhostSignal ⟨"file", "/some/dir"⟩ SignalKind.fileDeleted
      ⟨"file", "/dev/loop7"⟩).1 = true :=
  ⟨rfl, by decide⟩

/-! ## Rename / alias mutator (dfmrootcontroller.cpp:140-175, 445-489) -/

/-- The slice of `DFMRootFileInfo` consulted by the rename/alias path. -/
structure RootFi where
  canRename : Bool
  canSetAlias : Bool
  getUUID : String
  udisksDisplayName : String
  fileUrl : String
deriving DecidableEq

/-- One persisted alias record (`DISKALIAS_ITEM_*` keys). -/
structure AliasRec where
  uuid : String
  name : String
  diskAlias : String
deriving DecidableEq

/-- The synthetic ghost signal emitted after persisting
(`DAbstractFileWatcher::ghostSignal(DUrl(DFMROOT_ROOT), fileAttributeChanged, url)`). -/
inductive GhostEmit
  | attributeChanged (root : String) (url : String)
deriving DecidableEq

/-- Result of `setLocalDiskAlias`: returned boolean, the alias list as
mutated, whether the full list was persisted back to settings, and the
emitted ghost signals. -/
structure AliasResult where
  ok : Bool
  newList : List AliasRec
  persisted : Bool
  events : List GhostEmit
deriving DecidableEq

/-- The in-place update loop of `setLocalDiskAlias`
(dfmrootcontroller.cpp:460-474): on the first record with the given UUID,
an empty (trimmed) alias removes it, a non-empty one overwrites name and
alias in place; the boolean reports whether a record was found. -/
def updateAliasList (uuid displayName dispalyAlias : String) :
    List AliasRec → List AliasRec × Bool
  | [] => ([], false)
  | r :: rest =>
    if r.uuid = uuid then
      if dispalyAlias = "" then (rest, true)
      else ({ uuid := r.uuid, name := displayName, diskAlias := dispalyAlias } :: rest, true)
    else
      let p := updateAliasList uuid displayName dispalyAlias rest
      (r :: p.1, p.2)

/-- `DFMRootController::setLocalDiskAlias` (dfmrootcontroller.cpp:445-489). -/
def setLocalDiskAlias (fi : RootFi) (aliasStr : String) (list : List AliasRec) :
    AliasResult :=
  if ¬fi.canRename ∨ fi.getUUID = "" then
    { ok := false, newList := list, persisted := false, events := [] }
  else
    let uuid := fi.getUUID
    let dispalyAlias := trimmed aliasStr
    let displayName := fi.udisksDisplayName
    let p := updateAliasList uuid displayName dispalyAlias list
    let list2 :=
      if ¬p.2 ∧ dispalyAlias ≠ "" ∧ uuid ≠ "" then
        p.1 ++ [{ uuid := uuid, name := displayName, diskAlias := dispalyAlias }]
      else p.1
    { ok := true, newList := list2, persisted := true,
      events := [.attributeChanged DFMROOT_ROOT fi.fileUrl] }

/-- Spec-side helper: overwrite the first record with the given UUID in
place, preserving its position. -/
def replaceFirst (uuid : String) (newRec : AliasRec) : List AliasRec → List AliasRec
  | [] => []
  | r :: rest => if r.uuid = uuid then newRec :: rest else r :: replaceFirst uuid newRec rest

theorem updateAliasList_erase (uuid dn : String) (list : List AliasRec) :
    (updateAliasList uuid dn "" list).1 = list.eraseP (fun r => r.uuid == uuid) := by
  induction list with
  | nil => rfl
  | cons r rest ih =>
    by_cases h : r.uuid = uuid
    · simp [updateAliasList, h]
    · simp [updateAliasList, h, ih]

theorem updateAliasList_found (uuid dn al : String) (hal : al ≠ "")
    (list : List AliasRec) (hmem : ∃ r ∈ list, r.uuid = uuid) :
    updateAliasList uuid dn al list = (replaceFirst uuid ⟨uuid, dn, al⟩ list, true) := by
  induction list with
  | nil => simp at hmem
  | cons r rest ih =>
    by_cases h : r.uuid = uuid
    · simp [updateAliasList, replaceFirst, h, hal]
    · have hmem' : ∃ x ∈ rest, x.uuid = uuid := by
        rcases hmem with ⟨x, hx, hxu⟩
        rcases List.mem_cons.mp hx with rfl | hx'
        · exact absurd hxu h
        · exact ⟨x, hx', hxu⟩
      simp [updateAliasList, replaceFirst, h, ih hmem']

theorem updateAliasList_not_found (uuid dn al : String) (list : List AliasRec)
    (h : ∀ r ∈ list, r.uuid ≠ uuid) :
    updateAliasList uuid dn al list = (list, false) := by
  induction list with
  | nil => rfl
  | cons r rest ih =>
    have hr : r.uuid ≠ uuid := h r (List.mem_cons_self r rest)
    simp [updateAliasList, hr, ih fun x hx => h x (List.mem_cons_of_mem r hx)]

/-- C5: for an alias-capable entry with a non-empty UUID, a rename request
mutates the persisted alias list so that an empty (trimmed) new name
deletes the record for that UUID, an existing UUID's record is overwritten
in place preserving its position, and a new record is appended otherwise;
in every case the whole list is persisted back, a synthetic
attribute-change event for the root is emitted, and the call returns
true. -/
theorem setLocalDiskAlias_spec (fi : RootFi) (aliasStr : String)
    (list : List AliasRec) (hcan : fi.canRename = true) (huuid : fi.getUUID ≠ "") :
    (setLocalDiskAlias fi aliasStr list).ok = true ∧
    (setLocalDiskAlias fi aliasStr list).persisted = true ∧
    (setLocalDiskAlias fi aliasStr list).events =
      [.attributeChanged DFMROOT_ROOT fi.fileUrl] ∧
    (trimmed aliasStr = "" →
      (setLocalDiskAlias fi aliasStr list).newList =
        list.eraseP (fun r => r.uuid == fi.getUUID)) ∧
    (trimmed aliasStr ≠ "" → (∃ r ∈ list, r.uuid = fi.getUUID) →
      (setLocalDiskAlias fi aliasStr list).newList =
        replaceFirst fi.getUUID
          ⟨fi.getUUID, fi.udisksDisplayName, trimmed aliasStr⟩ list) ∧
    (trimmed aliasStr ≠ "" → (∀ r ∈ list, r.uuid ≠ fi.getUUID) →
      (setLocalDiskAlias fi aliasStr list).newList =
        list ++ [⟨fi.getUUID, fi.udisksDisplayName, trimmed aliasStr⟩]) := by
  have hguard : ¬(¬fi.canRename = true ∨ fi.getUUID = "") := by
    simp [hcan, huuid]
  unfold setLocalDiskAlias
  rw [if_neg hguard]
  refine ⟨rfl, rfl, rfl, fun h => ?_, fun h hmem => ?_, fun h hnone => ?_⟩
  · rw [h]
    simp [updateAliasList_erase]
  · dsimp only
    rw [updateAliasList_found fi.getUUID fi.udisksDisplayName (trimmed aliasStr) h
      list hmem]
    simp
  · dsimp only
    rw [updateAliasList_not_found fi.getUUID fi.udisksDisplayName (trimmed aliasStr)
      list hnone]
    simp [h, huuid]

/-- Witness for C5: set alias "X" on an entry whose UUID is not yet in the
list. -/
theorem setLocalDiskAlias_spec_witness :
    (setLocalDiskAlias ⟨true, true, "u1", "disk", "dfmroot:///sda1.localdisk"⟩ "X"
      []).ok = true ∧
    (setLocalDiskAlias ⟨true, true, "u1", "disk", "dfmroot:///sda1.localdisk"⟩ "X"
      []).persisted = true ∧
    (setLocalDiskAlias ⟨true, true, "u1", "disk", "dfmroot:///sda1.localdisk"⟩ "X"
      []).events =
      [.attributeChanged DFMROOT_ROOT "dfmroot:///sda1.localdisk"] ∧
    (trimmed "X" = "" →
      (setLocalDiskAlias ⟨true, true, "u1", "disk", "dfmroot:///sda1.localdisk"⟩ "X"
        []).newList = List.eraseP (fun r => r.uuid == "u1") []) ∧
    (trimmed "X" ≠ "" → (∃ r ∈ ([] : List AliasRec), r.uuid = "u1") →
      (setLocalDiskAlias ⟨true, true, "u1", "disk", "dfmroot:///sda1.localdisk"⟩ "X"
        []).newList = replaceFirst "u1" ⟨"u1", "disk", trimmed "X"⟩ []) ∧
    (trimmed "X" ≠ "" → (∀ r ∈ ([] : List AliasRec), r.uuid ≠ "u1") →
      (setLocalDiskAlias ⟨true, true, "u1", "disk", "dfmroot:///sda1.localdisk"⟩ "X"
        []).newList = [] ++ [⟨"u1", "disk", trimmed "X"⟩]) :=
  setLocalDiskAlias_spec ⟨true, true, "u1", "disk", "dfmroot:///sda1.localdisk"⟩ "X" []
    (by decide) (by decide)

/-- Outcome of the blocking backend calls issued by `renameFile`
(`blk->unmount`/`blk->setLabel`, observed through `blk->lastError()`). -/
structure RenameBackend where
  unmountError : Option String
  setLabelError : Option String
deriving DecidableEq

/-- Device operations issued by `renameFile`, in order. -/
inductive BlkAction
  | unmount
  | setLabel (label : String)
deriving DecidableEq

/-- Result of `renameFile`: returned boolean, the device operations issued
in order, the alias list as possibly mutated by the alias path, and any
emitted ghost signals. -/
structure RenameResult where
  ok : Bool
  actions : List BlkAction
  newList : List AliasRec
  events : List GhostEmit
deriving DecidableEq

/-- `DFMRootController::renameFile` (dfmrootcontroller.cpp:140-175).
`destName` is `event->toUrl().path()`; `mountPoints` are the device's
current mount points. -/
def renameFile (fi : RootFi) (destName : String) (mountPoints : List String)
    (bk : RenameBackend) (list : List AliasRec) : RenameResult :=
  if ¬fi.canRename then { ok := false, actions := [], newList := list, events := [] }
  else if fi.canSetAlias then
    let r := setLocalDiskAlias fi destName list
    { ok := r.ok, actions := [], newList := r.newList, events := r.events }
  else if fi.udisksDisplayName = destName then
    { ok := true, actions := [], newList := list, events := [] }
  else if mountPoints.length > 0 then
    if bk.unmountError.isSome then
      { ok := false, actions := [.unmount], newList := list, events := [] }
    else
      { ok := bk.setLabelError.isNone, actions := [.unmount, .setLabel destName],
        newList := list, events := [] }
  else
    { ok := bk.setLabelError.isNone, actions := [.setLabel destName],
      newList := list, events := [] }

/-- C6: for a rename of a non-alias-capable entry whose new name differs
from the current one, mounted devices are unmounted first and an unmount
error aborts the rename with a false result before any label change is
attempted; only after a successful unmount (or when nothing was mounted)
is the on-device label set, and the call returns true exactly when the
label-set reported no backend error. -/
theorem renameFile_label_path (fi : RootFi) (destName : String)
    (mountPoints : List String) (bk : RenameBackend) (list : List AliasRec)
    (hcan : fi.canRename = true) (halias : fi.canSetAlias = false)
    (hdiff : fi.udisksDisplayName ≠ destName) :
    (mountPoints ≠ [] → bk.unmountError.isSome = true →
      renameFile fi destName mountPoints bk list =
        { ok := false, actions := [.unmount], newList := list, events := [] }) ∧
    (mountPoints ≠ [] → bk.unmountError = none →
      renameFile fi destName mountPoints bk list =
        { ok := bk.setLabelError.isNone, actions := [.unmount, .setLabel destName],
          newList := list, events := [] }) ∧
    (mountPoints = [] →
      renameFile fi destName mountPoints bk list =
        { ok := bk.setLabelError.isNone, actions := [.setLabel destName],
          newList := list, events := [] }) ∧
    ((mountPoints = [] ∨ bk.unmountError = none) →
      ((renameFile fi destName mountPoints bk list).ok = true ↔
        bk.setLabelError = none)) := by
  unfold renameFile
  rw [if_neg (by simp [hcan]), if_neg (by simp [halias]), if_neg hdiff]
  refine ⟨fun hmp hun => ?_, fun hmp hun => ?_, fun hmp => ?_, fun hok => ?_⟩
  · rw [if_pos (by simpa [List.length_pos] using hmp), if_pos hun]
  · rw [if_pos (by simpa [List.length_pos] using hmp),
      if_neg (by simp [hun])]
  · rw [if_neg (by simp [hmp])]
  · rcases hok with hmp | hun
    · rw [if_neg (by simp [hmp])]
      simp [Option.isNone_iff_eq_none]
    · by_cases hmp : mountPoints.length > 0
      · rw [if_pos hmp, if_neg (by simp [hun])]
        simp [Option.isNone_iff_eq_none]
      · rw [if_neg hmp]
        simp [Option.isNone_iff_eq_none]

/-- Witness for C6: a mounted device with a clean unmount and a clean
label-set. -/
theorem renameFile_label_path_witness :
    (["/media/u"] ≠ ([] : List String) →
      (RenameBackend.mk none none).unmountError.isSome = true →
      renameFile ⟨true, false, "u1", "old", "dfmroot:///sda1.localdisk"⟩ "new"
        ["/media/u"] ⟨none, none⟩ [] =
        { ok := false, actions := [.unmount], newList := [], events := [] }) ∧
    (["/media/u"] ≠ ([] : List String) →
      (RenameBackend.mk none none).unmountError = none →
      renameFile ⟨true, false, "u1", "old", "dfmroot:///sda1.localdisk"⟩ "new"
        ["/media/u"] ⟨none, none⟩ [] =
        { ok := (RenameBackend.mk none none).setLabelError.isNone,
          actions := [.unmount, .setLabel "new"], newList := [], events := [] }) ∧
    ((["/media/u"] : List String) = [] →
      renameFile ⟨true, false, "u1", "old", "dfmroot:///sda1.localdisk"⟩ "new"
        ["/media/u"] ⟨none, none⟩ [] =
        { ok := (RenameBackend.mk none none).setLabelError.isNone,
          actions := [.setLabel "new"], newList := [], events := [] }) ∧
    (((["/media/u"] : List String) = [] ∨
        (RenameBackend.mk none none).unmountError = none) →
      ((renameFile ⟨true, false, "u1", "old", "dfmroot:///sda1.localdisk"⟩ "new"
          ["/media/u"] ⟨none, none⟩ []).ok = true ↔
        (RenameBackend.mk none none).setLabelError = none)) :=
  renameFile_label_path ⟨true, false, "u1", "old", "dfmroot:///sda1.localdisk"⟩ "new"
    ["/media/u"] ⟨none, none⟩ [] (by decide) (by decide) (by decide)

/-! ## Root enumerator (`getChildren`, dfmrootcontroller.cpp:195-374) -/

/-- Characters left unencoded by `QUrl::toPercentEncoding` (the RFC 3986
unreserved set). -/
def isUnreservedChar (c : Char) : Bool :=
  ('a' ≤ c && c ≤ 'z') || ('A' ≤ c && c ≤ 'Z') || ('0' ≤ c && c ≤ '9') ||
  c = '-' || c = '.' || c = '_' || c = '~'

def hexDigit (n : Nat) : Char :=
  if n < 10 then Char.ofNat ('0'.toNat + n) else Char.ofNat ('A'.toNat + n - 10)

/-- Per-character percent encoding. -/
def encChar (c : Char) : List Char :=
  if isUnreservedChar c then [c]
  else ['%', hexDigit (c.toNat / 16 % 16), hexDigit (c.toNat % 16)]

/-- `QUrl::toPercentEncoding`. -/
def percentEncode (s : String) : String := ⟨s.data.bind encChar⟩

def hexVal (c : Char) : Option Nat :=
  if '0' ≤ c && c ≤ '9' then some (c.toNat - '0'.toNat)
  else if 'A' ≤ c && c ≤ 'F' then some (c.toNat - 'A'.toNat + 10)
  else if 'a' ≤ c && c ≤ 'f' then some (c.toNat - 'a'.toNat + 10)
  else none

def percentDecodeL : List Char → List Char
  | '%' :: h :: l :: rest =>
    match hexVal h, hexVal l with
    | some hv, some lv => Char.ofNat (hv * 16 + lv) :: percentDecodeL rest
    | _, _ => '%' :: percentDecodeL (h :: l :: rest)
  | c :: rest => c :: percentDecodeL rest
  | [] => []

/-- `QUrl::fromPercentEncoding`. -/
def percentDecode (s : String) : String := ⟨percentDecodeL s.data⟩

/-- Scheme of a uri string (`DUrl(uri).scheme()`): the prefix before the
first colon. -/
def uriScheme (s : String) : String := ⟨s.data.takeWhile (fun c => c ≠ ':')⟩

/-- The root file of a `DGioMount`. -/
structure GvfsRootFile where
  uri : String
  path : String
deriving DecidableEq

/-- A `DGioMount` as inspected by the enumerator: the volume's monitor
name when a volume is attached, the mount class, the root file when
available, and whether the constructed `DFMRootFileInfo` exists. -/
structure GvfsMount where
  volumeMonitorName : Option String
  mountClass : String
  rootFile : Option GvfsRootFile
  infoExists : Bool
deriving DecidableEq

/-- One stashed offline remote-mount record (a `QVariantMap` with optional
`REMOTE_*` keys). -/
structure StashRecord where
  remoteKey : Option String
  protocol : Option String
  host : Option String
  share : Option String
deriving DecidableEq

/-- Entries produced by enumeration, tagged by origin and carrying the
identifying part of their url. -/
inductive RootEntry
  | userDir (url : String)
  | blockDev (url : String)
  | gvfsMount (key : String)
  | stashedRemote (url : String)
deriving DecidableEq

/-- Backend environment queried by one `getChildren` call. -/
structure EnumEnv where
  userDirExists : String → Bool
  blockDevices : List BlockDevEntry
  gvfsMounts : List GvfsMount
  stashedMounts : List StashRecord
  isFromNativeBlockDev : String → Bool
  groupPolicyHasDiskHidden : Bool
  diskPolicyList : List String

/-- The fixed well-known user directories (dfmrootcontroller.cpp:203). -/
def udirNames : List String :=
  ["desktop", "videos", "music", "pictures", "documents", "downloads"]

/-- Step 1 of enumeration: the user directories that exist. -/
def userDirEntries (env : EnumEnv) : List RootEntry :=
  (udirNames.filter env.userDirExists).map
    (fun d => .userDir (DFMROOT_ROOT ++ d ++ "." ++ SUFFIX_USRDIR))

/-- The block-device url: `DFMROOT_ROOT + device.mid(5) + "." SUFFIX_UDISKS`. -/
def blockDevUrl (device : String) : String :=
  DFMROOT_ROOT ++ strDrop device 5 ++ "." ++ SUFFIX_UDISKS

/-- The block-device section of `getChildren`
(dfmrootcontroller.cpp:220-250), also collecting the UUIDs of
system-hinted disks for the final policy synchronisation. -/
def blockDevStep (cfg : AppConfig) (env : EnumEnv)
    (acc : List RootEntry × List String) (d : BlockDevEntry) :
    List RootEntry × List String :=
  if ignoreBlkDevice cfg d.blk d.drv then acc
  else if cfg.dtkPolicySupport then
    if env.groupPolicyHasDiskHidden ∧ d.blk.hintSystem = true ∧
        d.blk.idUUID ∈ env.diskPolicyList then acc
    else
      let hint2 := if d.blk.hintSystem then acc.2 ++ [d.blk.idUUID] else acc.2
      if ¬env.groupPolicyHasDiskHidden ∧ cfg.hiddenSystemPartition = true ∧
          d.blk.hintSystem = true then (acc.1, hint2)
      else (acc.1 ++ [.blockDev (blockDevUrl d.blk.device)], hint2)
  else
    if cfg.hiddenSystemPartition = true ∧ d.blk.hintSystem = true then acc
    else (acc.1 ++ [.blockDev (blockDevUrl d.blk.device)], acc.2)

/-- Step 2 of enumeration over all raw block devices. -/
def processBlockDevs (cfg : AppConfig) (env : EnumEnv) : List RootEntry × List String :=
  env.blockDevices.foldl (blockDevStep cfg env) ([], [])

/-- The live-mount dedup key:
`"/" + QUrl::toPercentEncoding(rootFile->path()) + "." SUFFIX_GVFSMP`. -/
def gvfsKeyOf (rf : GvfsRootFile) : String :=
  "/" ++ percentEncode rf.path ++ "." ++ SUFFIX_GVFSMP

/-- The filter chain of the gvfs-mount loop (dfmrootcontroller.cpp:262-290):
returns the mount's dedup key when it survives every skip rule. -/
def gvfsAccepted (env : EnumEnv) (m : GvfsMount) : Option String :=
  if (match m.volumeMonitorName with
      | some n => trailsWith n.data "UDisks2".data
      | none => false) then none
  else if m.mountClass = "GUnixMount" then none
  else
    match m.rootFile with
    | none => none
    | some rf =>
      if uriScheme rf.uri = BURN_SCHEME then none
      else if strLeads rf.uri "file:///media/" && env.isFromNativeBlockDev rf.path then
        none
      else some (gvfsKeyOf rf)

/-- One iteration of the gvfs-mount loop with the dedup list (`urllist`)
threaded through; the key is recorded before the existence check, and the
entry is appended only when the info object exists. -/
def gvfsStep (env : EnumEnv) (acc : List RootEntry × List String) (m : GvfsMount) :
    List RootEntry × List String :=
  match gvfsAccepted env m with
  | none => acc
  | some key =>
    if key ∈ acc.2 then acc
    else (acc.1 ++ (if m.infoExists then [.gvfsMount key] else []), acc.2 ++ [key])

/-- Step 3 of enumeration over the live gvfs mounts. -/
def processGvfs (env : EnumEnv) : List RootEntry × List String :=
  env.gvfsMounts.foldl (gvfsStep env) ([], [])

/-- The stashed-remote dedup key:
`"/" + QUrl::toPercentEncoding(REMOTE_KEY + "." SUFFIX_GVFSMP)`. -/
def stashEncodedKey (k : String) : String :=
  "/" ++ percentEncode (k ++ "." ++ SUFFIX_GVFSMP)

/-- One record of the offline-connections loop
(dfmrootcontroller.cpp:305-341): `none` when the record is skipped. -/
def stashEntry (cfg : AppConfig) (urllist : List String) (r : StashRecord) :
    Option RootEntry :=
  match r.remoteKey with
  | none => none
  | some k =>
    if stashEncodedKey k ∈ urllist then none
    else
      match r.protocol, r.host with
      | some protocol, some host =>
        if protocol = "" ∨ host = "" then none
        else if cfg.integrationMode then none
        else
          some (.stashedRemote (percentDecode
            (DFMROOT_ROOT ++ protocol ++ "://" ++ host ++ "/" ++
             (r.share.getD "") ++ "." ++ SUFFIX_STASHED_REMOTE)))
      | _, _ => none

/-- Step 4 of enumeration over the offline stash. -/
def processStash (cfg : AppConfig) (env : EnumEnv) (urllist : List String) :
    List RootEntry :=
  env.stashedMounts.filterMap (stashEntry cfg urllist)

/-- `DFMRootController::getChildren` (dfmrootcontroller.cpp:195-374),
returning the produced entries and the sequence of writes made to the
persisted `GA_HiddenSystemPartition` setting (the final policy
synchronisation). -/
def getChildren (cfg : AppConfig) (env : EnumEnv) (url : RUrl) (canconst : Bool) :
    List RootEntry × List Bool :=
  if url.scheme ≠ DFMROOT_SCHEME ∨ url.path ≠ "/" then ([], [])
  else
    let users := userDirEntries env
    let blocks := processBlockDevs cfg env
    if canconst then (users ++ blocks.1, [])
    else
      let gvfs := processGvfs env
      let stash :=
        if cfg.alwaysShowOfflineRemoteConnections then processStash cfg env gvfs.2
        else []
      let writes :=
        if cfg.dtkPolicySupport ∧ env.groupPolicyHasDiskHidden then
          if env.diskPolicyList = [] then [false]
          else [blocks.2.all (fun u => env.diskPolicyList.contains u)]
        else []
      (users ++ blocks.1 ++ gvfs.1 ++ stash, writes)

/-- An empty backend environment (used by witnesses). -/
def envEmpty : EnumEnv :=
  { userDirExists := fun _ => false
    blockDevices := []
    gvfsMounts := []
    stashedMounts := []
    isFromNativeBlockDev := fun _ => false
    groupPolicyHasDiskHidden := false
    diskPolicyList := [] }

/-- C10: for every enumeration request whose url is not exactly the
virtual root (wrong scheme or a path other than "/"), the enumerator
returns the empty list, queries nothing, and performs no settings
write. -/
theorem getChildren_nonroot_empty (cfg : AppConfig) (env : EnumEnv) (url : RUrl)
    (canconst : Bool) (h : url.scheme ≠ DFMROOT_SCHEME ∨ url.path ≠ "/") :
    getChildren cfg env url canconst = ([], []) := by
  unfold getChildren
  rw [if_pos h]

/-- Witness for C10 at a file-scheme url against the empty environment. -/
theorem getChildren_nonroot_empty_witness :
    getChildren cfgDefault envEmpty ⟨"file", "/"⟩ false = ([], []) :=
  getChildren_nonroot_empty cfgDefault envEmpty ⟨"file", "/"⟩ false
    (Or.inl (by decide))

/-- Percent encoding distributes over append. -/
theorem percentEncode_append (a b : String) :
    percentEncode (a ++ b) = percentEncode a ++ percentEncode b := by
  apply String.ext
  simp [percentEncode, String.data_append]

/-- The stash key built from a record whose `REMOTE_KEY` is a live mount's
root path coincides with the live mount's dedup key: the suffix characters
are all unreserved, so the percent encodings agree. -/
theorem stashEncodedKey_eq_gvfsKeyOf (rf : GvfsRootFile) :
    stashEncodedKey rf.path = gvfsKeyOf rf := by
  unfold stashEncodedKey gvfsKeyOf
  rw [percentEncode_append, percentEncode_append,
    (by decide : percentEncode "." = "."),
    (by decide : percentEncode SUFFIX_GVFSMP = SUFFIX_GVFSMP)]
  apply String.ext
  simp [String.data_append]

theorem gvfsStep_none (env : EnumEnv) (acc : List RootEntry × List String)
    (m : GvfsMount) (h : gvfsAccepted env m = none) : gvfsStep env acc m = acc := by
  unfold gvfsStep
  rw [h]

theorem gvfsStep_mem (env : EnumEnv) (acc : List RootEntry × List String)
    (m : GvfsMount) (k : String) (h : gvfsAccepted env m = some k)
    (hin : k ∈ acc.2) : gvfsStep env acc m = acc := by
  unfold gvfsStep
  rw [h]
  simp [hin]

theorem gvfsStep_new (env : EnumEnv) (acc : List RootEntry × List String)
    (m : GvfsMount) (k : String) (h : gvfsAccepted env m = some k)
    (hin : k ∉ acc.2) :
    gvfsStep env acc m =
      (acc.1 ++ (if m.infoExists then [.gvfsMount k] else []), acc.2 ++ [k]) := by
  unfold gvfsStep
  rw [h]
  simp [hin]

/-- The dedup list after the gvfs loop contains `K` as soon as some mount
in the list is accepted with key `K` (or `K` was already present). -/
theorem processGvfs_urllist_mem (env : EnumEnv) (K : String) :
    ∀ (ms : List GvfsMount) (acc : List RootEntry × List String),
      ((∃ m ∈ ms, gvfsAccepted env m = some K) ∨ K ∈ acc.2) →
      K ∈ (ms.foldl (gvfsStep env) acc).2 := by
  intro ms
  induction ms with
  | nil =>
    intro acc h
    rcases h with ⟨m, hm, _⟩ | h
    · simp at hm
    · simpa using h
  | cons m rest ih =>
    intro acc h
    simp only [List.foldl_cons]
    apply ih
    rcases h with ⟨m', hm', hacc⟩ | hK
    · rcases List.mem_cons.mp hm' with rfl | hm'2
      · right
        by_cases hin : K ∈ acc.2
        · rw [gvfsStep_mem env acc m' K hacc hin]
          exact hin
        · rw [gvfsStep_new env acc m' K hacc hin]
          simp
      · left
        exact ⟨m', hm'2, hacc⟩
    · right
      cases hga : gvfsAccepted env m with
      | none =>
        rw [gvfsStep_none env acc m hga]
        exact hK
      | some k =>
        by_cases hin : k ∈ acc.2
        · rw [gvfsStep_mem env acc m k hga hin]
          exact hK
        · rw [gvfsStep_new env acc m k hga hin]
          simp [hK]

/-- Count of the `K`-keyed live entry produced by the gvfs loop: the dedup
list guarantees at most one, and it is present exactly when some accepted
mount carries key `K` not already represented — provided every accepted
mount with key `K` has an existing info object. -/
theorem processGvfs_count (env : EnumEnv) (K : String) :
    ∀ (ms : List GvfsMount) (acc : List RootEntry × List String),
      (∀ m ∈ ms, gvfsAccepted env m = some K → m.infoExists = true) →
      (ms.foldl (gvfsStep env) acc).1.count (.gvfsMount K) =
        acc.1.count (.gvfsMount K) +
        (if K ∈ acc.2 then 0
         else if ∃ m ∈ ms, gvfsAccepted env m = some K then 1 else 0) := by
  intro ms
  induction ms with
  | nil =>
    intro acc hex
    simp
  | cons m rest ih =>
    intro acc hex
    simp only [List.foldl_cons]
    rw [ih _ (fun m' hm' => hex m' (List.mem_cons_of_mem m hm'))]
    cases hga : gvfsAccepted env m with
    | none =>
      rw [gvfsStep_none env acc m hga]
      simp [hga]
    | some k =>
      by_cases hkK : k = K
      · rw [hkK] at hga
        by_cases hin : K ∈ acc.2
        · rw [gvfsStep_mem env acc m K hga hin]
          simp [hin]
        · rw [gvfsStep_new env acc m K hga hin]
          have hex1 : m.infoExists = true := hex m (List.mem_cons_self m rest) hga
          simp [hex1, hin, hga, List.count_append]
      · by_cases hin : k ∈ acc.2
        · rw [gvfsStep_mem env acc m k hga hin]
          simp [hga, hkK]
        · rw [gvfsStep_new env acc m k hga hin]
          have hne : RootEntry.gvfsMount K ∉
              (if m.infoExists then [RootEntry.gvfsMount k] else []) := by
            by_cases he : m.infoExists
            · simp only [he, if_true, List.mem_singleton]
              intro hc
              exact hkK (RootEntry.gvfsMount.inj hc).symm
            · simp [he]
          have hcnt : (acc.1 ++
              (if m.infoExists then [RootEntry.gvfsMount k] else [])).count
                (RootEntry.gvfsMount K) = acc.1.count (RootEntry.gvfsMount K) := by
            rw [List.count_append, List.count_eq_zero.mpr hne, Nat.add_zero]
          have hmem : (K ∈ acc.2 ++ [k]) ↔ K ∈ acc.2 := by
            simp only [List.mem_append, List.mem_singleton]
            constructor
            · rintro (h | h)
              · exact h
              · exact absurd h.symm hkK
            · exact Or.inl
          rw [hcnt]
          simp only [hmem]
          simp [hga, hkK]

theorem userDirEntries_count (env : EnumEnv) (K : String) :
    (userDirEntries env).count (RootEntry.gvfsMount K) = 0 := by
  rw [List.count_eq_zero]
  intro h
  simp [userDirEntries] at h

theorem processBlockDevs_count (cfg : AppConfig) (env : EnumEnv) (K : String) :
    ∀ (ds : List BlockDevEntry) (acc : List RootEntry × List String),
      (ds.foldl (blockDevStep cfg env) acc).1.count (RootEntry.gvfsMount K) =
        acc.1.count (RootEntry.gvfsMount K) := by
  intro ds
  induction ds with
  | nil => intro acc; rfl
  | cons d rest ih =>
    intro acc
    simp only [List.foldl_cons]
    rw [ih]
    have hz : List.count (RootEntry.gvfsMount K)
        [RootEntry.blockDev (blockDevUrl d.blk.device)] = 0 :=
      List.count_eq_zero.mpr (by simp)
    unfold blockDevStep
    split_ifs <;> simp [List.count_append, hz]

theorem stashEntry_none_of_key_mem (cfg : AppConfig) (ul : List String)
    (r : StashRecord) (k : String) (hk : r.remoteKey = some k)
    (hin : stashEncodedKey k ∈ ul) : stashEntry cfg ul r = none := by
  unfold stashEntry
  rw [hk]
  simp [hin]

theorem stashEntry_none_of_integration (cfg : AppConfig) (ul : List String)
    (r : StashRecord) (h : cfg.integrationMode = true) :
    stashEntry cfg ul r = none := by
  unfold stashEntry
  cases hk : r.remoteKey with
  | none => rfl
  | some k =>
    dsimp only
    by_cases hin : stashEncodedKey k ∈ ul
    · simp [hin]
    · rw [if_neg hin]
      cases hp : r.protocol with
      | none =>
        cases hh : r.host with
        | none => rfl
        | some hst => rfl
      | some p =>
        cases hh : r.host with
        | none => rfl
        | some hst => simp [h]

theorem stashEntry_none_of_bad_fields (cfg : AppConfig) (ul : List String)
    (r : StashRecord)
    (h : r.protocol = none ∨ r.protocol = some "" ∨ r.host = none ∨ r.host = some "") :
    stashEntry cfg ul r = none := by
  unfold stashEntry
  cases hk : r.remoteKey with
  | none => rfl
  | some k =>
    dsimp only
    by_cases hin : stashEncodedKey k ∈ ul
    · simp [hin]
    · rw [if_neg hin]
      cases hp : r.protocol with
      | none =>
        cases hh : r.host with
        | none => rfl
        | some hst => rfl
      | some p =>
        cases hh : r.host with
        | none => rfl
        | some hst =>
          have hpe : p = "" ∨ hst = "" := by
            rcases h with h1 | h1 | h1 | h1
            · rw [hp] at h1
              simp at h1
            · rw [hp] at h1
              exact Or.inl (Option.some.inj h1)
            · rw [hh] at h1
              simp at h1
            · rw [hh] at h1
              exact Or.inr (Option.some.inj h1)
          simp [hpe]

theorem stashEntry_shape (cfg : AppConfig) (ul : List String) (r : StashRecord)
    (e : RootEntry) (h : stashEntry cfg ul r = some e) :
    ∃ s, e = RootEntry.stashedRemote s := by
  unfold stashEntry at h
  cases hk : r.remoteKey with
  | none =>
    rw [hk] at h
    simp at h
  | some k =>
    rw [hk] at h
    dsimp only at h
    by_cases hin : stashEncodedKey k ∈ ul
    · rw [if_pos hin] at h
      simp at h
    · rw [if_neg hin] at h
      cases hp : r.protocol with
      | none =>
        rw [hp] at h
        cases hh : r.host with
        | none =>
          rw [hh] at h
          simp at h
        | some hst =>
          rw [hh] at h
          simp at h
      | some p =>
        rw [hp] at h
        cases hh : r.host with
        | none =>
          rw [hh] at h
          simp at h
        | some hst =>
          rw [hh] at h
          dsimp only at h
          by_cases hpe : p = "" ∨ hst = ""
          · rw [if_pos hpe] at h
            simp at h
          · rw [if_neg hpe] at h
            by_cases hint : cfg.integrationMode = true
            · rw [if_pos hint] at h
              simp at h
            · rw [if_neg hint] at h
              exact ⟨_, (Option.some.inj h).symm⟩

theorem processStash_count (cfg : AppConfig) (env : EnumEnv) (ul : List String)
    (K : String) :
    (processStash cfg env ul).count (RootEntry.gvfsMount K) = 0 := by
  rw [List.count_eq_zero]
  intro hmem
  rcases List.mem_filterMap.mp hmem with ⟨r, _, he⟩
  obtain ⟨s, hs⟩ := stashEntry_shape cfg ul r _ he
  simp at hs

/-- C7: with "always show offline connections" enabled, a logical network
mount present both in the live mount set (passing the live filters, with
an existing info object) and in the offline stash yields exactly one entry
in the enumeration, and it is the live one; a stashed record is skipped
whenever its key is already in the dedup list collected from the live
entries, and also when the aggregation-mode switch is on or its protocol
or host field is missing or empty. -/
theorem getChildren_offline_dedup (cfg : AppConfig) (env : EnumEnv) (m : GvfsMount)
    (rf : GvfsRootFile)
    (hoffline : cfg.alwaysShowOfflineRemoteConnections = true)
    (hm : m ∈ env.gvfsMounts)
    (hrf : m.rootFile = some rf)
    (hacc : gvfsAccepted env m = some (gvfsKeyOf rf))
    (hex : ∀ m' ∈ env.gvfsMounts, gvfsAccepted env m' = some (gvfsKeyOf rf) →
      m'.infoExists = true) :
    (getChildren cfg env ⟨DFMROOT_SCHEME, "/"⟩ false).1.count
        (RootEntry.gvfsMount (gvfsKeyOf rf)) = 1 ∧
    (∀ r ∈ env.stashedMounts, r.remoteKey = some rf.path →
      stashEntry cfg (processGvfs env).2 r = none) ∧
    (∀ (cfg' : AppConfig) (ul : List String) (r : StashRecord) (k : String),
      r.remoteKey = some k → stashEncodedKey k ∈ ul → stashEntry cfg' ul r = none) ∧
    (∀ (cfg' : AppConfig) (ul : List String) (r : StashRecord),
      cfg'.integrationMode = true → stashEntry cfg' ul r = none) ∧
    (∀ (cfg' : AppConfig) (ul : List String) (r : StashRecord),
      r.protocol = none ∨ r.protocol = some "" ∨ r.host = none ∨ r.host = some "" →
      stashEntry cfg' ul r = none) := by
  refine ⟨?_, ?_, ?_, ?_, ?_⟩
  · unfold getChildren
    rw [if_neg (by simp), if_neg Bool.false_ne_true]
    dsimp only
    rw [List.count_append, List.count_append, List.count_append,
      userDirEntries_count]
    rw [show (processBlockDevs cfg env).1.count
        (RootEntry.gvfsMount (gvfsKeyOf rf)) = 0 from by
      unfold processBlockDevs
      rw [processBlockDevs_count]
      simp]
    rw [show (processGvfs env).1.count (RootEntry.gvfsMount (gvfsKeyOf rf)) = 1
        from by
      unfold processGvfs
      rw [processGvfs_count env (gvfsKeyOf rf) env.gvfsMounts ([], []) hex]
      have hexist : ∃ m' ∈ env.gvfsMounts,
          gvfsAccepted env m' = some (gvfsKeyOf rf) := ⟨m, hm, hacc⟩
      simp [hexist]]
    rw [if_pos hoffline, processStash_count]
  · intro r hr hkey
    apply stashEntry_none_of_key_mem cfg _ r rf.path hkey
    rw [stashEncodedKey_eq_gvfsKeyOf rf]
    unfold processGvfs
    exact processGvfs_urllist_mem env (gvfsKeyOf rf) env.gvfsMounts ([], [])
      (Or.inl ⟨m, hm, hacc⟩)
  · exact fun cfg' ul r k hk hin => stashEntry_none_of_key_mem cfg' ul r k hk hin
  · exact fun cfg' ul r h => stashEntry_none_of_integration cfg' ul r h
  · exact fun cfg' ul r h => stashEntry_none_of_bad_fields cfg' ul r h

/-- A live smb mount whose root path is "p". -/
def rfW : GvfsRootFile := { uri := "smb://h/s", path := "p" }

/-- The live mount wrapping `rfW`, passing every filter. -/
def mountW : GvfsMount :=
  { volumeMonitorName := none
    mountClass := "GDaemonMount"
    rootFile := some rfW
    infoExists := true }

/-- A stashed record for the same logical mount. -/
def stashW : StashRecord :=
  { remoteKey := some "p"
    protocol := some "smb"
    host := some "h"
    share := some "s" }

/-- Environment with the mount both live and stashed. -/
def envW : EnumEnv :=
  { userDirExists := fun _ => false
    blockDevices := []
    gvfsMounts := [mountW]
    stashedMounts := [stashW]
    isFromNativeBlockDev := fun _ => false
    groupPolicyHasDiskHidden := false
    diskPolicyList := [] }

/-- Configuration with "always show offline connections" enabled. -/
def cfgOffline : AppConfig :=
  { hideLoopPartitions := false
    hiddenSystemPartition := false
    alwaysShowOfflineRemoteConnections := true
    integrationMode := false
    dtkPolicySupport := false }

/-- Witness for C7: in the concrete environment the logical mount present
both live and stashed produces exactly one entry, the live one. -/
theorem getChildren_offline_dedup_witness :
    (getChildren cfgOffline envW ⟨DFMROOT_SCHEME, "/"⟩ false).1.count
        (RootEntry.gvfsMount (gvfsKeyOf rfW)) = 1 :=
  (getChildren_offline_dedup cfgOffline envW mountW rfW (by decide) (by decide)
    (by decide) (by decide) (by decide)).1
